import Mathlib

/-!
Verification of the kuiperdatawhale loading subsystem (course3): a shallow
embedding of the stored-only ZIP codec (store_zip.cpp) and of the
RuntimeGraph translation layer (runtime_ir.cpp), together with theorems
settling the specification claims about them.

Modelling conventions:
* C byte buffers and file contents are `List Nat` with every element < 256
  (stated as a hypothesis where it matters).
* Machine integers are `Nat` with explicit `% 2 ^ w` exactly where the C code
  truncates (for example the uint16/uint32 fields written into headers).
* File positions (`ftell`/`fseek`) are `Nat`; positions may point past the
  end of the byte list, matching `fseek` beyond EOF.
* `LOG(FATAL)` (process abort) and undefined behaviour (a null-pointer
  dereference) are modelled as distinguished error outcomes, separate from a
  clean `return false` / nonzero return code.
-/

namespace KuiperZip

/-- Little-endian encoding of a 16-bit field as two bytes, truncating the
value exactly as the C `uint16_t` store does. -/
def u16le (n : Nat) : List Nat :=
  [n % 256, n / 256 % 256]

/-- Little-endian encoding of a 32-bit field as four bytes, truncating the
value exactly as the C `uint32_t` store does. -/
def u32le (n : Nat) : List Nat :=
  [n % 256, n / 256 % 256, n / 65536 % 256, n / 16777216 % 256]

/-- Decode the two bytes at offset `off` of `l` as a little-endian 16-bit
value (missing bytes read as 0, matching zero-filled buffers). -/
def decodeU16 (l : List Nat) (off : Nat) : Nat :=
  l.getD off 0 + 256 * l.getD (off + 1) 0

/-- Decode the four bytes at offset `off` of `l` as a little-endian 32-bit
value. -/
def decodeU32 (l : List Nat) (off : Nat) : Nat :=
  decodeU16 l off + 65536 * decodeU16 l (off + 2)

/-- The bytes a read of `n` bytes at position `pos` stores into a zero-filled
destination buffer: the available file bytes, zero-padded to length `n`
(`std::string::resize` zero-fills, a short `fread` overwrites only the
available prefix). -/
def bytesAt (file : List Nat) (pos n : Nat) : List Nat :=
  (file.drop pos).take n ++ List.replicate (n - ((file.drop pos).take n).length) 0

/-! ### CRC32 (store_zip.cpp, CRC32_TABLE_INIT / CRC32 / CRC32_buffer) -/

/-- One round of the reflected CRC32 polynomial division: the body of the
inner loop of CRC32_TABLE_INIT. -/
def crcRound (c : Nat) : Nat :=
  if c % 2 = 1 then (c / 2) ^^^ 0xedb88320 else c / 2

/-- CRC32_TABLE entry `i`: the table is filled by running eight rounds of
`crcRound` starting from the byte value. -/
def CRC32_TABLE (i : Nat) : Nat :=
  crcRound (crcRound (crcRound (crcRound
    (crcRound (crcRound (crcRound (crcRound i)))))))

/-- CRC32: one table-driven update step, `(x >> 8) ^ table[(x ^ ch) & 0xff]`. -/
def CRC32 (x ch : Nat) : Nat :=
  (x / 256) ^^^ CRC32_TABLE ((x ^^^ ch) % 256)

/-- CRC32_buffer: fold CRC32 over the data starting from 0xffffffff and
finish by xor with 0xffffffff. -/
def CRC32_buffer (data : List Nat) : Nat :=
  (data.foldl CRC32 0xffffffff) ^^^ 0xffffffff

/-! ### StoreZipWriter (store_zip.cpp) -/

/-- Per-entry metadata the writer keeps for the central directory
(struct StoreZipMeta in StoreZipWriter). -/
structure WriterMeta where
  name : List Nat
  lfh_offset : Nat
  crc32 : Nat
  size : Nat
deriving Repr, DecidableEq

/-- Writer state: the bytes emitted so far (the open file) and the recorded
per-entry metadata. `StoreZipWriter::open` starts from an empty file. -/
structure WriterState where
  out : List Nat
  filemetas : List WriterMeta
deriving Repr, DecidableEq

/-- A fresh writer on a newly opened (truncated) file. -/
def WriterState.init : WriterState :=
  { out := [], filemetas := [] }

/-- The 26 bytes of a local file header after its signature, exactly the
field order and widths of `struct local_file_header` with the values
`StoreZipWriter::write_file` assigns (version/flag/compression/time/date all
zero, sizes both `size`, no extra field). -/
def lfhBytes (crc size nameLen : Nat) : List Nat :=
  u16le 0 ++ u16le 0 ++ u16le 0 ++ u16le 0 ++ u16le 0 ++
    u32le crc ++ u32le size ++ u32le size ++ u16le nameLen ++ u16le 0

/-- All bytes `write_file` appends for one entry: local-file-header signature,
header, name, raw data. -/
def entryBytes (name data : List Nat) : List Nat :=
  u32le 0x04034b50 ++ lfhBytes (CRC32_buffer data) data.length name.length ++
    name ++ data

/-- StoreZipWriter::write_file - append one stored entry and record its
metadata. -/
def write_file (st : WriterState) (name data : List Nat) : WriterState :=
  { out := st.out ++ entryBytes name data,
    filemetas := st.filemetas ++
      [{ name := name, lfh_offset := st.out.length,
         crc32 := CRC32_buffer data, size := data.length }] }

/-- The 42 bytes of a central directory file header after its signature,
exactly the fields `StoreZipWriter::close` assigns for a recorded entry. -/
def cdfhBytes (m : WriterMeta) : List Nat :=
  u16le 0 ++ u16le 0 ++ u16le 0 ++ u16le 0 ++ u16le 0 ++ u16le 0 ++
    u32le m.crc32 ++ u32le m.size ++ u32le m.size ++
    u16le m.name.length ++ u16le 0 ++ u16le 0 ++ u16le 0 ++ u16le 0 ++
    u32le 0 ++ u32le m.lfh_offset

/-- One full central directory record: signature, header, name. -/
def cdEntryBytes (m : WriterMeta) : List Nat :=
  u32le 0x02014b50 ++ cdfhBytes m ++ m.name

/-- The whole central directory `close` emits. -/
def cdSection (ms : List WriterMeta) : List Nat :=
  ms.foldr (fun m acc => cdEntryBytes m ++ acc) []

/-- The 18 bytes of the end-of-central-directory record after its signature:
disk numbers 0, both record counts, directory size and offset, comment
length 0. -/
def eocdrBytes (records cdSize cdOffset : Nat) : List Nat :=
  u16le 0 ++ u16le 0 ++ u16le records ++ u16le records ++
    u32le cdSize ++ u32le cdOffset ++ u16le 0

/-- StoreZipWriter::close - replay the recorded metadata into central
directory records, then the end-of-central-directory record; returns the
final file contents. -/
def writer_close (st : WriterState) : List Nat :=
  let offset := st.out.length
  let out2 := st.out ++ cdSection st.filemetas
  let offset2 := out2.length
  out2 ++ u32le 0x06054b50 ++ eocdrBytes st.filemetas.length (offset2 - offset) offset

/-! ### StoreZipReader (store_zip.cpp) -/

/-- Per-entry metadata the reader records for each local file header
(struct StoreZipMeta in StoreZipReader): data offset and stored size. -/
structure ReaderMeta where
  offset : Nat
  size : Nat
deriving Repr, DecidableEq

/-- The reader's `filemetas` map from entry name (raw bytes) to metadata. -/
abbrev ReaderTable := List (List Nat × ReaderMeta)

/-- `filemetas[name] = fm`: `std::map::operator[]` replaces the value of an
existing key and otherwise adds the binding. -/
def mapStore (t : ReaderTable) (k : List Nat) (v : ReaderMeta) : ReaderTable :=
  match t with
  | [] => [(k, v)]
  | (k', v') :: rest => if k' = k then (k, v) :: rest else (k', v') :: mapStore rest k v

/-- `filemetas.find(name)` as lookup semantics of the `std::map`. -/
def mapFind (t : ReaderTable) (k : List Nat) : Option ReaderMeta :=
  match t with
  | [] => none
  | (k', v') :: rest => if k' = k then some v' else mapFind rest k

/-- The fields of `struct local_file_header` as read back from its 26 bytes. -/
structure LFH where
  flag : Nat
  compression : Nat
  crc32 : Nat
  compressed_size : Nat
  uncompressed_size : Nat
  file_name_length : Nat
  extra_field_length : Nat
deriving Repr, DecidableEq

/-- Decode a local file header from the 26 bytes following its signature
(field offsets per the packed struct layout; the version/time/date fields the
reader never consults are not retained). -/
def parseLFH (b : List Nat) : LFH :=
  { flag := decodeU16 b 2
    compression := decodeU16 b 4
    crc32 := decodeU32 b 10
    compressed_size := decodeU32 b 14
    uncompressed_size := decodeU32 b 18
    file_name_length := decodeU16 b 22
    extra_field_length := decodeU16 b 24 }

/-- Outcome of `StoreZipReader::open`.  `err` is the explicit `return -1`
paths; `undef` marks the runs in which a struct `fread` comes up short and
the C code goes on to read indeterminate struct memory (no claim depends on
that behaviour, so it is kept distinct rather than modelled). -/
inductive ZipOpenResult where
  | ok (table : ReaderTable)
  | err
  | undef
deriving Repr, DecidableEq

/-- The signature-dispatch loop of `StoreZipReader::open`, one fuel unit per
4-byte signature read.  Reading fewer than 4 signature bytes breaks the loop
with success (`fread` returns 0 complete items); a local file header is
rejected if flag bit 3 is set, if the compression method is nonzero, or if
the two size fields differ; central-directory and end-of-central-directory
records are skipped; any other signature fails.  Positions may run past the
end of the file, as `fseek` allows. -/
def openLoop (file : List Nat) (fuel pos : Nat) (table : ReaderTable) : ZipOpenResult :=
  if (file.drop pos).length < 4 then .ok table
  else
    match fuel with
    | 0 => .undef
    | fuel + 1 =>
      let sig := decodeU32 ((file.drop pos).take 4) 0
      let pos1 := pos + 4
      if sig = 0x04034b50 then
        if (file.drop pos1).length < 26 then .undef
        else
          let lfh := parseLFH ((file.drop pos1).take 26)
          if lfh.flag &&& 8 ≠ 0 then .err
          else if lfh.compression ≠ 0 ∨ lfh.compressed_size ≠ lfh.uncompressed_size then .err
          else
            let pos2 := pos1 + 26
            let name := bytesAt file pos2 lfh.file_name_length
            let pos3 := min (pos2 + lfh.file_name_length) file.length
            let pos4 := pos3 + lfh.extra_field_length
            openLoop file fuel (pos4 + lfh.compressed_size)
              (mapStore table name { offset := pos4, size := lfh.compressed_size })
      else if sig = 0x02014b50 then
        if (file.drop pos1).length < 42 then .undef
        else
          let b := (file.drop pos1).take 42
          openLoop file fuel
            (pos1 + 42 + decodeU16 b 24 + decodeU16 b 26 + decodeU16 b 28) table
      else if sig = 0x06054b50 then
        if (file.drop pos1).length < 18 then .undef
        else
          openLoop file fuel (pos1 + 18 + decodeU16 ((file.drop pos1).take 18) 16) table
      else .err

/-- StoreZipReader::open on file contents (the path/`fopen` side, which only
fails on an unreadable path, is outside the byte model).  The loop runs at
most one signature read per 4 file bytes, so `file.length` units of fuel are
never exhausted on top of the always-checked end-of-file break. -/
def zipOpen (file : List Nat) : ZipOpenResult :=
  openLoop file file.length 0 []

/-- StoreZipReader::get_file_size - returns the recorded size, or 0 (with a
diagnostic) when the name is absent. -/
def get_file_size (t : ReaderTable) (name : List Nat) : Nat :=
  match mapFind t name with
  | none => 0
  | some m => m.size

/-- StoreZipReader::read_file - on a missing name returns -1 leaving the
caller's buffer untouched; otherwise seeks to the recorded offset, reads the
recorded number of bytes into the front of the buffer, and returns 0. -/
def read_file (file : List Nat) (t : ReaderTable) (name : List Nat)
    (data : List Nat) : Int × List Nat :=
  match mapFind t name with
  | none => (-1, data)
  | some m =>
    let got := (file.drop m.offset).take m.size
    (0, got ++ data.drop got.length)

/-! ### Statement-side definitions for the archive claims -/

/-- The stored-only constraints of the specification that a local file
header must satisfy, as a checked predicate: flag bit 3 set, nonzero
compression method, or differing size fields each violate them. -/
def violatesStoredOnly (lfh : LFH) : Bool :=
  (lfh.flag &&& 8 != 0) || (lfh.compression != 0) ||
    (lfh.compressed_size != lfh.uncompressed_size)

/-- The concatenated local-file-header section `write_file` emits for a
sequence of (name, data) entries. -/
def lfhSection (entries : List (List Nat × List Nat)) : List Nat :=
  match entries with
  | [] => []
  | (n, d) :: rest => entryBytes n d ++ lfhSection rest

/-- The reader table the local-file-header section of `entries`, laid out
from position `pos`, makes the reader record on top of `t`: each entry's
data starts 30 + name-length bytes after its header. -/
def buildTable (entries : List (List Nat × List Nat)) (pos : Nat)
    (t : ReaderTable) : ReaderTable :=
  match entries with
  | [] => t
  | (n, d) :: rest =>
    buildTable rest (pos + (entryBytes n d).length)
      (mapStore t n { offset := pos + 30 + n.length, size := d.length })

/-- The writer metadata `write_file` accumulates for `entries` when the
first entry's local header starts at `pos`. -/
def metasOf (entries : List (List Nat × List Nat)) (pos : Nat) : List WriterMeta :=
  match entries with
  | [] => []
  | (n, d) :: rest =>
    { name := n, lfh_offset := pos, crc32 := CRC32_buffer d, size := d.length } ::
      metasOf rest (pos + (entryBytes n d).length)

/-- Write a sequence of named buffers with `write_file` on a fresh writer. -/
def writeAll (entries : List (List Nat × List Nat)) : WriterState :=
  entries.foldl (fun st e => write_file st e.1 e.2) WriterState.init

/-- Reference CRC32 of the specification, independent of the writer: one
polynomial-division round of the reflected polynomial 0xEDB88320. -/
def refCrcRound (c : Nat) : Nat :=
  if c % 2 = 1 then (c / 2) ^^^ 0xedb88320 else c / 2

/-- Reference CRC32: the precomputed 256-entry table (entry `i` is eight
rounds applied to `i`). -/
def refCrcTable (i : Nat) : Nat :=
  refCrcRound (refCrcRound (refCrcRound (refCrcRound
    (refCrcRound (refCrcRound (refCrcRound (refCrcRound i)))))))

/-- Reference CRC32: per-byte update of the running value through the
table. -/
def refCrcUpdate (x b : Nat) : Nat :=
  (x / 256) ^^^ refCrcTable ((x ^^^ b) % 256)

/-- Reference CRC32 of a byte sequence: running value seeded at 0xFFFFFFFF
and finalized by xor with 0xFFFFFFFF. -/
def crc32_reference (data : List Nat) : Nat :=
  (data.foldl refCrcUpdate 0xffffffff) ^^^ 0xffffffff

end KuiperZip

namespace KuiperIR

/-!
Shallow embedding of the pnnx static IR (ir.h) and of the RuntimeGraph
translation (runtime_ir.cpp).  C++ pointers that may be null are `Option`;
a pointer to an `Operator` that is only ever dereferenced for its name is
modelled by that name.  32-bit `float` payloads are carried as their bit
patterns (`Nat`): the translation layer only ever copies them, so the
embedding never needs floating-point arithmetic.  `std::map` contents are
association lists; `std::map::insert` keeps the first binding for a key.
-/

/-- pnnx::Parameter - the tagged parameter value.  `type` codes (ir.h):
0=null 1=b 2=i 3=f 4=s 5=ai 6=af 7=as. -/
structure Parameter where
  type : Int
  b : Bool
  i : Int
  f : Nat
  s : String
  ai : List Int
  af : List Nat
  as : List String
deriving Repr, DecidableEq

/-- pnnx::Attribute - scalar type code, shape and raw bytes of one weight
blob. -/
structure Attribute where
  type : Int
  shape : List Int
  data : List Nat
deriving Repr, DecidableEq

/-- pnnx::Operand - one graph edge.  `producer` is an `Operator*` that can be
null (an external graph input); the translation only reads its `name`, so the
pointer is modelled by the producer's name.  `consumers` likewise appear only
through their names. -/
structure Operand where
  producer : Option String
  consumers : List String
  type : Int
  shape : List Int
  name : String
deriving Repr, DecidableEq

/-- pnnx::Operator - one graph node with nullable input/output operand
pointers, parameter map and attribute map. -/
structure Operator where
  inputs : List (Option Operand)
  outputs : List (Option Operand)
  type : String
  name : String
  params : List (String × Parameter)
  attrs : List (String × Attribute)
deriving Repr, DecidableEq

/-- RuntimeDataType values the translation constructs (kTypeUnknown for
dtype code 0, kTypeFloat32 for dtype code 1). -/
inductive RuntimeDataType where
  | kTypeUnknown
  | kTypeFloat32
deriving Repr, DecidableEq

/-- RuntimeOperand (runtime_operand.hpp view used by runtime_ir.cpp): name of
the producing operator, shape copied verbatim, mapped dtype. -/
structure RuntimeOperand where
  name : String
  shapes : List Int
  type : RuntimeDataType
deriving Repr, DecidableEq

/-- RuntimeAttribute - dtype, copied raw bytes and shape of one weight. -/
structure RuntimeAttribute where
  type : RuntimeDataType
  weight_data : List Nat
  shape : List Int
deriving Repr, DecidableEq

/-- The eight RuntimeParameter variants (runtime_parameter.hpp class
hierarchy flattened to a closed variant): unknown/absent, bool, int, float,
string, int-array, float-array, string-array. -/
inductive RuntimeParameter where
  | unknown
  | boolean (value : Bool)
  | int (value : Int)
  | float (value : Nat)
  | string (value : String)
  | intArray (value : List Int)
  | floatArray (value : List Nat)
  | stringArray (value : List String)
deriving Repr, DecidableEq

/-- Modelled from the spec: the numeric values of RuntimeParameterType
(status_code.hpp is not part of the sources at hand; §4.5 of the spec states
that the translation constructs "the matching one of eight RuntimeParameter
variants" for each pnnx type tag, so the eight enumerators align with the
pnnx::Parameter codes 0..7 documented in ir.h). -/
def RuntimeParameterTypeCode : RuntimeParameter → Int
  | .unknown => 0
  | .boolean _ => 1
  | .int _ => 2
  | .float _ => 3
  | .string _ => 4
  | .intArray _ => 5
  | .floatArray _ => 6
  | .stringArray _ => 7

/-- RuntimeOperator - the execution-ready node runtime_ir.cpp fills in:
name/type, input operand map and sequence, downstream consumer names,
attribute map and parameter map. -/
structure RuntimeOperator where
  name : String
  type : String
  input_operands : List (String × RuntimeOperand)
  input_operands_seq : List RuntimeOperand
  output_names : List String
  attrs : List (String × RuntimeAttribute)
  params : List (String × RuntimeParameter)
deriving Repr, DecidableEq

/-- `std::map::insert` - adds the binding only when the key is absent. -/
def mapInsertNew {β : Type} (t : List (String × β)) (k : String) (v : β) :
    List (String × β) :=
  match t with
  | [] => [(k, v)]
  | (k', v') :: rest =>
    if k' = k then (k', v') :: rest else (k', v') :: mapInsertNew rest k v

/-- Abnormal terminations of RuntimeGraph::Init, kept separate from its
clean boolean return: `nullProducer` is the undefined behaviour of reading
`producer->name` through a null pointer, the others are the `LOG(FATAL)`
aborts on unsupported type codes. -/
inductive InitFault where
  | nullProducer
  | unknownOperandType (t : Int)
  | unknownAttrType (t : Int)
  | unknownParamType (t : Int)
deriving Repr, DecidableEq

/-- RuntimeGraph::InitGraphOperatorsInput - walk the input operands (null
entries skipped), read the producer's name (a crash when the producer is
null), map dtype code 1 to kTypeFloat32 and 0 to kTypeUnknown (anything else
is a LOG(FATAL)), and accumulate the operand into both the name-keyed map
and the positional sequence. -/
def InitGraphOperatorsInput (inputs : List (Option Operand))
    (imap : List (String × RuntimeOperand)) (iseq : List RuntimeOperand) :
    Except InitFault (List (String × RuntimeOperand) × List RuntimeOperand) :=
  match inputs with
  | [] => .ok (imap, iseq)
  | none :: rest => InitGraphOperatorsInput rest imap iseq
  | some input :: rest =>
    match input.producer with
    | none => .error .nullProducer
    | some pname =>
      let ty : Except InitFault RuntimeDataType :=
        if input.type = 1 then .ok .kTypeFloat32
        else if input.type = 0 then .ok .kTypeUnknown
        else .error (.unknownOperandType input.type)
      match ty with
      | .error e => .error e
      | .ok t =>
        let ro : RuntimeOperand := { name := pname, shapes := input.shape, type := t }
        InitGraphOperatorsInput rest (mapInsertNew imap pname ro) (iseq ++ [ro])

/-- RuntimeGraph::InitGraphOperatorsOutput - for every (non-null) output
operand append each consumer's name to the output-name list. -/
def InitGraphOperatorsOutput (outputs : List (Option Operand))
    (names : List String) : List String :=
  match outputs with
  | [] => names
  | none :: rest => InitGraphOperatorsOutput rest names
  | some output :: rest => InitGraphOperatorsOutput rest (names ++ output.consumers)

/-- RuntimeGraph::InitGraphAttrs - only attribute type code 1 (float32) is
supported: its bytes and shape are copied into a RuntimeAttribute; any other
code is a LOG(FATAL). -/
def InitGraphAttrs (attrs : List (String × Attribute))
    (acc : List (String × RuntimeAttribute)) :
    Except InitFault (List (String × RuntimeAttribute)) :=
  match attrs with
  | [] => .ok acc
  | (name, attr) :: rest =>
    if attr.type = 1 then
      InitGraphAttrs rest (mapInsertNew acc name
        { type := .kTypeFloat32, weight_data := attr.data, shape := attr.shape })
    else .error (.unknownAttrType attr.type)

/-- RuntimeGraph::InitGraphParams - dispatch on the pnnx type tag 0..7 into
the matching RuntimeParameter variant holding a copy of the corresponding
payload; any other tag is a LOG(FATAL). -/
def InitGraphParams (params : List (String × Parameter))
    (acc : List (String × RuntimeParameter)) :
    Except InitFault (List (String × RuntimeParameter)) :=
  match params with
  | [] => .ok acc
  | (name, p) :: rest =>
    let v : Except InitFault RuntimeParameter :=
      if p.type = 0 then .ok .unknown
      else if p.type = 1 then .ok (.boolean p.b)
      else if p.type = 2 then .ok (.int p.i)
      else if p.type = 3 then .ok (.float p.f)
      else if p.type = 4 then .ok (.string p.s)
      else if p.type = 5 then .ok (.intArray p.ai)
      else if p.type = 6 then .ok (.floatArray p.af)
      else if p.type = 7 then .ok (.stringArray p.as)
      else .error (.unknownParamType p.type)
    match v with
    | .error e => .error e
    | .ok rp => InitGraphParams rest (mapInsertNew acc name rp)

/-- Build one RuntimeOperator from a static operator: copy name/type, then
run the input, output, attribute and parameter translations (steps 5.2-5.6
of RuntimeGraph::Init). -/
def buildRuntimeOperator (op : Operator) : Except InitFault RuntimeOperator :=
  match InitGraphOperatorsInput op.inputs [] [] with
  | .error e => .error e
  | .ok (imap, iseq) =>
    let onames := InitGraphOperatorsOutput op.outputs []
    match InitGraphAttrs op.attrs [] with
    | .error e => .error e
    | .ok rattrs =>
      match InitGraphParams op.params [] with
      | .error e => .error e
      | .ok rparams =>
        .ok { name := op.name, type := op.type, input_operands := imap,
              input_operands_seq := iseq, output_names := onames,
              attrs := rattrs, params := rparams }

/-- RuntimeGraph state: the stored paths and the built operator list plus
name index. -/
structure RuntimeGraph where
  param_path : String
  bin_path : String
  operators : List RuntimeOperator
  operators_maps : List (String × RuntimeOperator)
deriving Repr, DecidableEq

/-- The main construction loop of RuntimeGraph::Init (step 5): null operator
pointers are skipped with a diagnostic; each remaining operator is built and
registered in the ordered list and the name index (`std::map::insert`, first
binding kept). -/
def buildLoop (ops : List (Option Operator)) (g : RuntimeGraph) :
    Except InitFault RuntimeGraph :=
  match ops with
  | [] => .ok g
  | none :: rest => buildLoop rest g
  | some op :: rest =>
    match buildRuntimeOperator op with
    | .error e => .error e
    | .ok ro =>
      buildLoop rest
        { g with operators := g.operators ++ [ro],
                 operators_maps := mapInsertNew g.operators_maps ro.name ro }

/-- RuntimeGraph::Init.  `load` stands for `pnnx::Graph::load` (whose
implementation lives outside these sources): it yields the operator list of
the loaded graph, or `none` for a nonzero load result.  The clean boolean
return of Init is the `Bool` of the `.ok` outcome; a `LOG(FATAL)` or null
dereference during translation is an `InitFault`.  Note that the old
operator list is cleared only after the three validation steps succeed. -/
def Init (load : String → String → Option (List (Option Operator)))
    (g : RuntimeGraph) : Except InitFault (Bool × RuntimeGraph) :=
  if g.bin_path = "" ∨ g.param_path = "" then .ok (false, g)
  else
    match load g.param_path g.bin_path with
    | none => .ok (false, g)
    | some ops =>
      if ops = [] then .ok (false, g)
      else
        match buildLoop ops { g with operators := [], operators_maps := [] } with
        | .error e => .error e
        | .ok g' => .ok (true, g')

/-- The sequence of runtime operators RuntimeGraph::Init builds from an
operator list, independent of the starting state (null entries skipped). -/
def buildOps (ops : List (Option Operator)) : Except InitFault (List RuntimeOperator) :=
  match ops with
  | [] => .ok []
  | none :: rest => buildOps rest
  | some op :: rest =>
    match buildRuntimeOperator op with
    | .error e => .error e
    | .ok ro =>
      match buildOps rest with
      | .error e => .error e
      | .ok ros => .ok (ro :: ros)

/-! ### Concrete inputs used by the claim theorems and witnesses -/

/-- An operand with no producer: an external graph input. -/
def externalInput : Operand :=
  { producer := none, consumers := ["linear1"], type := 1, shape := [1, 32],
    name := "0" }

/-- An operator consuming the external graph input. -/
def inputConsumerOp : Operator :=
  { inputs := [some externalInput], outputs := [], type := "nn.Linear",
    name := "linear1", params := [], attrs := [] }

/-- A runtime operator as a previous successful Init would have recorded. -/
def staleRuntimeOp : RuntimeOperator :=
  { name := "linear1", type := "nn.Linear", input_operands := [],
    input_operands_seq := [], output_names := [], attrs := [], params := [] }

/-- A graph state left by a successful Init whose bin path was then set to
the empty string: the next Init fails its path validation. -/
def staleGraph : RuntimeGraph :=
  { param_path := "m.param", bin_path := "", operators := [staleRuntimeOp],
    operators_maps := [("linear1", staleRuntimeOp)] }

/-- A minimal operator with no inputs, outputs, parameters or attributes. -/
def plainOp : Operator :=
  { inputs := [], outputs := [], type := "nn.ReLU", name := "relu1",
    params := [], attrs := [] }

/-- A loader serving a one-operator graph for any paths. -/
def plainLoad : String → String → Option (List (Option Operator)) :=
  fun _ _ => some [some plainOp]

/-- A fresh runtime graph on nonempty paths. -/
def freshGraph : RuntimeGraph :=
  { param_path := "m.param", bin_path := "m.bin", operators := [],
    operators_maps := [] }

/-- The runtime operator Init builds from plainOp. -/
def plainRuntimeOp : RuntimeOperator :=
  { name := "relu1", type := "nn.ReLU", input_operands := [],
    input_operands_seq := [], output_names := [], attrs := [], params := [] }

/-- The graph state Init produces from freshGraph under plainLoad. -/
def plainResultGraph : RuntimeGraph :=
  { param_path := "m.param", bin_path := "m.bin", operators := [plainRuntimeOp],
    operators_maps := [("relu1", plainRuntimeOp)] }

end KuiperIR

/-!
## Theorems

First the supporting lemmas, then one theorem per claim (with a witness
where the theorem carries hypotheses).
-/

namespace KuiperZip

theorem u16le_length (n : Nat) : (u16le n).length = 2 := rfl

theorem u32le_length (n : Nat) : (u32le n).length = 4 := rfl

theorem bytesAt_length (file : List Nat) (pos n : Nat) :
    (bytesAt file pos n).length = n := by
  simp only [bytesAt, List.length_append, List.length_replicate, List.length_take,
    List.length_drop]
  omega

end KuiperZip

/-- Claim C1: the input translation is claimed to treat an Operand with no
producer as an explicit, checked case that never dereferences the missing
reference.  The code does the opposite: on a one-operator graph whose input
operand has no producer, RuntimeGraph::Init reads the name through the null
producer pointer, which the embedding records as the `nullProducer` fault -
neither a completed Init nor a clean failure return. -/
theorem init_null_producer_dereference :
    KuiperIR.Init (fun _ _ => some [some KuiperIR.inputConsumerOp]) KuiperIR.freshGraph =
      .error .nullProducer := by
  rfl

/-- Claim C2 counterexample: an Init that fails path validation (empty bin
path) leaves a previously built operator list in place, so after the failed
Init the RuntimeGraph still holds built runtime operators - contradicting
the claim that any failed Init leaves no built runtime operators. -/
theorem init_failure_keeps_stale_operators :
    KuiperIR.Init (fun _ _ => none) KuiperIR.staleGraph =
      .ok (false, KuiperIR.staleGraph) ∧
    KuiperIR.staleGraph.operators ≠ [] := by
  exact ⟨rfl, by simp [KuiperIR.staleGraph]⟩

/-- Claim C2 (amended): Init returns the clean failure `false` exactly when
the bin path or param path is empty, Graph::load reports an error, or the
loaded graph has zero operators; and every clean failure leaves the state -
including any previously built operator list - exactly as it was, because
the old operators are cleared only after all three validations pass. -/
theorem init_failure_exact
    (load : String → String → Option (List (Option KuiperIR.Operator)))
    (g : KuiperIR.RuntimeGraph) :
    (KuiperIR.Init load g = .ok (false, g) ↔
      (g.bin_path = "" ∨ g.param_path = "" ∨
        load g.param_path g.bin_path = none ∨
        load g.param_path g.bin_path = some [])) ∧
    (∀ b g', KuiperIR.Init load g = .ok (b, g') → b = false → g' = g) := by
  unfold KuiperIR.Init
  by_cases h1 : g.bin_path = "" ∨ g.param_path = ""
  · rw [if_pos h1]
    refine ⟨⟨fun _ => ?_, fun _ => rfl⟩, fun b g' h _ => ?_⟩
    · rcases h1 with h | h
      · exact Or.inl h
      · exact Or.inr (Or.inl h)
    · simp only [Except.ok.injEq, Prod.mk.injEq] at h
      exact h.2.symm
  · rw [if_neg h1]
    push_neg at h1
    cases hload : load g.param_path g.bin_path with
    | none =>
      refine ⟨⟨fun _ => Or.inr (Or.inr (Or.inl rfl)), fun _ => rfl⟩,
        fun b g' h _ => ?_⟩
      simp only [Except.ok.injEq, Prod.mk.injEq] at h
      exact h.2.symm
    | some ops =>
      by_cases h2 : ops = []
      · subst h2
        refine ⟨⟨fun _ => Or.inr (Or.inr (Or.inr rfl)), fun _ => by simp⟩,
          fun b g' h _ => ?_⟩
        simp only [reduceIte, Except.ok.injEq, Prod.mk.injEq] at h
        exact h.2.symm
      · simp only [if_neg h2]
        cases hbuild : KuiperIR.buildLoop ops
            { g with operators := [], operators_maps := [] } with
        | error e =>
          refine ⟨⟨fun h => absurd h (by simp), fun hc => ?_⟩, fun b g' h => ?_⟩
          · rcases hc with h | h | h | h
            · exact absurd h h1.1
            · exact absurd h h1.2
            · cases h
            · simp only [Option.some.injEq] at h
              exact absurd h h2
          · cases h
        | ok gg =>
          refine ⟨⟨fun h => absurd h (by simp), fun hc => ?_⟩, fun b g' h hb' => ?_⟩
          · rcases hc with h | h | h | h
            · exact absurd h h1.1
            · exact absurd h h1.2
            · cases h
            · simp only [Option.some.injEq] at h
              exact absurd h h2
          · simp only [Except.ok.injEq, Prod.mk.injEq] at h
            rw [← h.1] at hb'
            cases hb'

/-- Claim C2 witness: a concrete Init whose loader fails reports the clean
failure and returns the untouched state. -/
theorem init_failure_exact_witness :
    KuiperIR.Init (fun _ _ => none) KuiperIR.freshGraph =
      .ok (false, KuiperIR.freshGraph) :=
  (init_failure_exact (fun _ _ => none) KuiperIR.freshGraph).1.mpr
    (Or.inr (Or.inr (Or.inl rfl)))

/-- Claim C6: for a name absent from the reader's lookup table, read_file
returns the failure indicator -1 and leaves the caller's buffer untouched,
and get_file_size takes its explicit no-such-file branch, reporting the
sentinel 0 instead of a recorded size. -/
theorem absent_name_lookup_fails (file : List Nat) (t : KuiperZip.ReaderTable)
    (name buf : List Nat) (h : KuiperZip.mapFind t name = none) :
    KuiperZip.read_file file t name buf = (-1, buf) ∧
    KuiperZip.get_file_size t name = 0 := by
  constructor
  · unfold KuiperZip.read_file
    rw [h]
  · unfold KuiperZip.get_file_size
    rw [h]

/-- Claim C6 witness: a lookup of an unregistered name on a concrete table
fails both ways without touching the buffer. -/
theorem absent_name_lookup_fails_witness :
    KuiperZip.read_file [1, 2, 3] [] [120] [7, 7] = (-1, [7, 7]) ∧
    KuiperZip.get_file_size [] [120] = 0 :=
  absent_name_lookup_fails [1, 2, 3] [] [120] [7, 7] rfl

/-- Claim C7: every unsupported type code stops the translation of the
operator/attribute at hand with a hard error (the LOG(FATAL) modelled as an
InitFault): an input operand dtype other than 1 (float32) or 0 (not yet
known), an attribute scalar type other than 1 (float32), and a parameter
Value type outside the eight known kinds 0..7. -/
theorem unsupported_type_codes_fatal :
    (∀ (input : KuiperIR.Operand) rest imap iseq pname,
        input.producer = some pname → input.type ≠ 0 → input.type ≠ 1 →
        KuiperIR.InitGraphOperatorsInput (some input :: rest) imap iseq =
          .error (.unknownOperandType input.type)) ∧
    (∀ (name : String) (attr : KuiperIR.Attribute) rest acc, attr.type ≠ 1 →
        KuiperIR.InitGraphAttrs ((name, attr) :: rest) acc =
          .error (.unknownAttrType attr.type)) ∧
    (∀ (name : String) (p : KuiperIR.Parameter) rest acc,
        (p.type < 0 ∨ 7 < p.type) →
        KuiperIR.InitGraphParams ((name, p) :: rest) acc =
          .error (.unknownParamType p.type)) := by
  refine ⟨?_, ?_, ?_⟩
  · intro input rest imap iseq pname hp h0 h1
    unfold KuiperIR.InitGraphOperatorsInput
    rw [hp]
    simp only [if_neg h1, if_neg h0]
  · intro name attr rest acc h
    unfold KuiperIR.InitGraphAttrs
    rw [if_neg h]
  · intro name p rest acc h
    have h0 : p.type ≠ 0 := by omega
    have h1 : p.type ≠ 1 := by omega
    have h2 : p.type ≠ 2 := by omega
    have h3 : p.type ≠ 3 := by omega
    have h4 : p.type ≠ 4 := by omega
    have h5 : p.type ≠ 5 := by omega
    have h6 : p.type ≠ 6 := by omega
    have h7 : p.type ≠ 7 := by omega
    unfold KuiperIR.InitGraphParams
    simp only [if_neg h0, if_neg h1, if_neg h2, if_neg h3, if_neg h4, if_neg h5,
      if_neg h6, if_neg h7]

/-- Claim C7 witness: concrete unsupported codes (operand dtype 7, attribute
type 3, parameter type 9) each produce the corresponding hard error. -/
theorem unsupported_type_codes_fatal_witness :
    KuiperIR.InitGraphOperatorsInput
        [some { producer := some "p", consumers := [], type := 7, shape := [],
                name := "x" }] [] [] = .error (.unknownOperandType 7) ∧
    KuiperIR.InitGraphAttrs
        [("weight", { type := 3, shape := [2], data := [0, 0] })] [] =
      .error (.unknownAttrType 3) ∧
    KuiperIR.InitGraphParams
        [("k", { type := 9, b := false, i := 0, f := 0, s := "", ai := [],
                 af := [], as := [] })] [] = .error (.unknownParamType 9) :=
  ⟨unsupported_type_codes_fatal.1 _ [] [] [] "p" rfl (by decide) (by decide),
   unsupported_type_codes_fatal.2.1 "weight" _ [] [] (by decide),
   unsupported_type_codes_fatal.2.2 "k" _ [] [] (Or.inr (by decide))⟩

/-- Claim C9: for each declared Value, InitGraphParams constructs exactly
the RuntimeParameter variant matching the Value's type tag, holding a copy
of the corresponding payload; in particular a bool parameter bias=true
translates to a RuntimeParameter holding exactly true. -/
theorem param_variants_match (name : String) (p : KuiperIR.Parameter) :
    (p.type = 0 →
      KuiperIR.InitGraphParams [(name, p)] [] = .ok [(name, .unknown)]) ∧
    (p.type = 1 →
      KuiperIR.InitGraphParams [(name, p)] [] = .ok [(name, .boolean p.b)]) ∧
    (p.type = 2 →
      KuiperIR.InitGraphParams [(name, p)] [] = .ok [(name, .int p.i)]) ∧
    (p.type = 3 →
      KuiperIR.InitGraphParams [(name, p)] [] = .ok [(name, .float p.f)]) ∧
    (p.type = 4 →
      KuiperIR.InitGraphParams [(name, p)] [] = .ok [(name, .string p.s)]) ∧
    (p.type = 5 →
      KuiperIR.InitGraphParams [(name, p)] [] = .ok [(name, .intArray p.ai)]) ∧
    (p.type = 6 →
      KuiperIR.InitGraphParams [(name, p)] [] = .ok [(name, .floatArray p.af)]) ∧
    (p.type = 7 →
      KuiperIR.InitGraphParams [(name, p)] [] = .ok [(name, .stringArray p.as)]) ∧
    KuiperIR.InitGraphParams
        [("bias", { type := 1, b := true, i := 0, f := 0, s := "", ai := [],
                    af := [], as := [] })] [] = .ok [("bias", .boolean true)] := by
  refine ⟨?_, ?_, ?_, ?_, ?_, ?_, ?_, ?_, rfl⟩ <;>
    · intro h
      unfold KuiperIR.InitGraphParams
      simp [h, KuiperIR.InitGraphParams, KuiperIR.mapInsertNew]

/-- Claim C9 witness: the int parameter in_features=32 translates to the
int variant holding exactly 32. -/
theorem param_variants_match_witness :
    KuiperIR.InitGraphParams
        [("in_features", { type := 2, b := false, i := 32, f := 0, s := "",
                           ai := [], af := [], as := [] })] [] =
      .ok [("in_features", .int 32)] :=
  (param_variants_match "in_features" _).2.2.1 rfl

/-- Claim C10: a file that ends before a complete 4-byte signature can be
read - in particular a zero-byte file - makes StoreZipReader::open succeed
with an empty lookup table: the first signature read returns no complete
item and the loop breaks with the success return. -/
theorem short_file_opens_ok (file : List Nat) (h : file.length < 4) :
    KuiperZip.zipOpen file = .ok [] := by
  unfold KuiperZip.zipOpen KuiperZip.openLoop
  simp [h]

/-- Claim C10 witness: opening a zero-byte file succeeds with an empty
table. -/
theorem short_file_opens_ok_witness : KuiperZip.zipOpen [] = .ok [] :=
  short_file_opens_ok [] (by decide)

/-- Claim C3: whenever the open loop reads a complete 32-bit signature that
is none of local-file-header, central-directory or end-of-central-directory,
it fails; and a complete local file header whose flag has bit 3 set, whose
compression method is nonzero, or whose size fields differ also makes it
fail.  Opening a non-archive file (one starting with such a foreign
signature) therefore returns failure. -/
theorem open_rejects_bad_headers (file : List Nat) (fuel pos : Nat)
    (t : KuiperZip.ReaderTable) (h4 : 4 ≤ file.length - pos) :
    (KuiperZip.decodeU32 ((file.drop pos).take 4) 0 ≠ 0x04034b50 →
     KuiperZip.decodeU32 ((file.drop pos).take 4) 0 ≠ 0x02014b50 →
     KuiperZip.decodeU32 ((file.drop pos).take 4) 0 ≠ 0x06054b50 →
      KuiperZip.openLoop file (fuel + 1) pos t = .err) ∧
    (KuiperZip.decodeU32 ((file.drop pos).take 4) 0 = 0x04034b50 →
     26 ≤ file.length - (pos + 4) →
     KuiperZip.violatesStoredOnly
        (KuiperZip.parseLFH ((file.drop (pos + 4)).take 26)) = true →
      KuiperZip.openLoop file (fuel + 1) pos t = .err) := by
  have hlen : ¬ (file.drop pos).length < 4 := by
    rw [List.length_drop]; omega
  constructor
  · intro h1 h2 h3
    unfold KuiperZip.openLoop
    rw [if_neg hlen]
    simp only [if_neg h1, if_neg h2, if_neg h3]
  · intro hsig h26 hv
    have hlen26 : ¬ (file.drop (pos + 4)).length < 26 := by
      rw [List.length_drop]; omega
    simp only [KuiperZip.violatesStoredOnly, Bool.or_eq_true, bne_iff_ne, ne_eq] at hv
    unfold KuiperZip.openLoop
    rw [if_neg hlen]
    simp only [if_pos hsig, if_neg hlen26]
    by_cases hf : (KuiperZip.parseLFH ((file.drop (pos + 4)).take 26)).flag &&& 8 ≠ 0
    · simp only [if_pos hf]
    · have hcs : (KuiperZip.parseLFH ((file.drop (pos + 4)).take 26)).compression ≠ 0 ∨
          (KuiperZip.parseLFH ((file.drop (pos + 4)).take 26)).compressed_size ≠
            (KuiperZip.parseLFH ((file.drop (pos + 4)).take 26)).uncompressed_size := by
        tauto
      simp only [if_neg hf, if_pos hcs]

/-- Claim C3 witness: a file beginning with the DOS executable signature is
rejected by StoreZipReader::open. -/
theorem open_rejects_bad_headers_witness :
    KuiperZip.zipOpen [77, 90, 144, 0] = .err :=
  (open_rejects_bad_headers [77, 90, 144, 0] 3 0 [] (by decide)).1
    (by decide) (by decide) (by decide)

namespace KuiperZip

theorem crcRound_lt {c : Nat} (h : c < 2 ^ 32) : crcRound c < 2 ^ 32 := by
  unfold crcRound
  split
  · exact Nat.xor_lt_two_pow (by omega) (by norm_num)
  · omega

theorem CRC32_TABLE_lt {i : Nat} (h : i < 2 ^ 32) : CRC32_TABLE i < 2 ^ 32 := by
  unfold CRC32_TABLE
  exact crcRound_lt (crcRound_lt (crcRound_lt (crcRound_lt
    (crcRound_lt (crcRound_lt (crcRound_lt (crcRound_lt h)))))))

theorem CRC32_lt (x ch : Nat) (hx : x < 2 ^ 32) : CRC32 x ch < 2 ^ 32 := by
  unfold CRC32
  exact Nat.xor_lt_two_pow (by omega) (CRC32_TABLE_lt (by omega))

theorem foldl_CRC32_lt (data : List Nat) :
    ∀ x, x < 2 ^ 32 → data.foldl CRC32 x < 2 ^ 32 := by
  induction data with
  | nil => intro x h; simpa using h
  | cons b rest ih =>
    intro x h
    rw [List.foldl_cons]
    exact ih _ (CRC32_lt x b h)

theorem CRC32_buffer_lt (data : List Nat) : CRC32_buffer data < 2 ^ 32 := by
  unfold CRC32_buffer
  exact Nat.xor_lt_two_pow (foldl_CRC32_lt data _ (by norm_num)) (by norm_num)

/-- The writer's CRC32 routine and the specification's reference CRC32 are
the same function. -/
theorem CRC32_buffer_eq_reference (data : List Nat) :
    CRC32_buffer data = crc32_reference data := rfl

end KuiperZip

/-- Claim C5: the crc32 field write_file stores in the entry's local file
header (bytes 14..17 of the emitted entry, decoded little-endian) equals the
reference table-driven CRC32 of the data - table over the reflected
polynomial 0xEDB88320, running value seeded at 0xFFFFFFFF, finalized by xor
with 0xFFFFFFFF - and so does the crc recorded in the writer's metadata for
the central directory. -/
theorem write_file_records_reference_crc (st : KuiperZip.WriterState)
    (name data : List Nat) :
    KuiperZip.decodeU32 (KuiperZip.entryBytes name data) 14 =
      KuiperZip.crc32_reference data ∧
    ((KuiperZip.write_file st name data).filemetas.getLast?).map
        KuiperZip.WriterMeta.crc32 = some (KuiperZip.crc32_reference data) := by
  have hb := KuiperZip.CRC32_buffer_lt data
  constructor
  · have h : KuiperZip.decodeU32 (KuiperZip.entryBytes name data) 14 =
        KuiperZip.CRC32_buffer data % 256 +
          256 * (KuiperZip.CRC32_buffer data / 256 % 256) +
          65536 * (KuiperZip.CRC32_buffer data / 65536 % 256 +
            256 * (KuiperZip.CRC32_buffer data / 16777216 % 256)) := rfl
    rw [h, ← KuiperZip.CRC32_buffer_eq_reference]
    omega
  · rw [← KuiperZip.CRC32_buffer_eq_reference]
    unfold KuiperZip.write_file
    simp

namespace KuiperIR

theorem buildRuntimeOperator_name_type (op : Operator) (ro : RuntimeOperator)
    (h : buildRuntimeOperator op = .ok ro) :
    ro.name = op.name ∧ ro.type = op.type := by
  unfold buildRuntimeOperator at h
  cases h1 : InitGraphOperatorsInput op.inputs [] [] with
  | error e => rw [h1] at h; cases h
  | ok pr =>
    rw [h1] at h
    cases h2 : InitGraphAttrs op.attrs [] with
    | error e => rw [h2] at h; cases h
    | ok rattrs =>
      rw [h2] at h
      cases h3 : InitGraphParams op.params [] with
      | error e => rw [h3] at h; cases h
      | ok rparams =>
        rw [h3] at h
        simp only [Except.ok.injEq] at h
        rw [← h]
        exact ⟨rfl, rfl⟩

theorem buildLoop_ok (ops : List (Option Operator)) :
    ∀ g g', buildLoop ops g = .ok g' →
      ∃ ros, buildOps ops = .ok ros ∧ g'.operators = g.operators ++ ros ∧
        g'.param_path = g.param_path ∧ g'.bin_path = g.bin_path := by
  induction ops with
  | nil =>
    intro g g' h
    unfold buildLoop at h
    simp only [Except.ok.injEq] at h
    subst h
    exact ⟨[], rfl, by simp, rfl, rfl⟩
  | cons o rest ih =>
    cases o with
    | none =>
      intro g g' h
      unfold buildLoop at h
      exact ih g g' h
    | some op =>
      intro g g' h
      unfold buildLoop at h
      cases hb : buildRuntimeOperator op with
      | error e => rw [hb] at h; cases h
      | ok ro =>
        rw [hb] at h
        obtain ⟨ros, hops, hcat, hp, hbp⟩ := ih _ _ h
        refine ⟨ro :: ros, ?_, ?_, hp, hbp⟩
        · unfold buildOps
          rw [hb, hops]
        · rw [hcat]
          simp

theorem buildOps_map_some (ops : List Operator) :
    ∀ ros, buildOps (ops.map some) = .ok ros →
      ros.map RuntimeOperator.name = ops.map Operator.name ∧
      ros.map RuntimeOperator.type = ops.map Operator.type ∧
      ros.length = ops.length := by
  induction ops with
  | nil =>
    intro ros h
    unfold buildOps at h
    simp only [List.map_nil] at h
    cases h
    simp
  | cons op rest ih =>
    intro ros h
    rw [List.map_cons] at h
    unfold buildOps at h
    cases hb : buildRuntimeOperator op with
    | error e => rw [hb] at h; cases h
    | ok ro =>
      rw [hb] at h
      cases hr : buildOps (rest.map some) with
      | error e => rw [hr] at h; cases h
      | ok ros' =>
        rw [hr] at h
        simp only [Except.ok.injEq] at h
        subst h
        obtain ⟨hn, ht, hl⟩ := ih ros' hr
        obtain ⟨hon, hot⟩ := buildRuntimeOperator_name_type op ro hb
        simp [List.map_cons, List.length_cons, hn, ht, hl, hon, hot]

end KuiperIR

/-- Claim C8: after a successful Init on a loader that yields the operator
list `ops` (no null entries), the runtime graph holds exactly one
RuntimeOperator per source Operator, in source order, with name and type
copied; and a second Init on the unchanged paths rebuilds exactly the same
operator list. -/
theorem init_op_list_matches_source
    (load : String → String → Option (List (Option KuiperIR.Operator)))
    (g g' : KuiperIR.RuntimeGraph) (ops : List KuiperIR.Operator)
    (hload : load g.param_path g.bin_path = some (ops.map some))
    (hinit : KuiperIR.Init load g = .ok (true, g')) :
    g'.operators.length = ops.length ∧
    g'.operators.map KuiperIR.RuntimeOperator.name =
      ops.map KuiperIR.Operator.name ∧
    g'.operators.map KuiperIR.RuntimeOperator.type =
      ops.map KuiperIR.Operator.type ∧
    ∀ g'', KuiperIR.Init load g' = .ok (true, g'') →
      g''.operators = g'.operators := by
  unfold KuiperIR.Init at hinit
  by_cases h1 : g.bin_path = "" ∨ g.param_path = ""
  · rw [if_pos h1] at hinit
    cases hinit
  · rw [if_neg h1] at hinit
    rw [hload] at hinit
    by_cases h2 : ops.map some = []
    · rw [h2] at hinit
      simp at hinit
    · simp only [if_neg h2] at hinit
      cases hb : KuiperIR.buildLoop (ops.map some)
          { param_path := g.param_path, bin_path := g.bin_path, operators := [],
            operators_maps := [] } with
      | error e => rw [hb] at hinit; cases hinit
      | ok gg =>
        rw [hb] at hinit
        simp only [Except.ok.injEq, Prod.mk.injEq, true_and] at hinit
        subst hinit
        obtain ⟨ros, hops, hcat, hp, hbp⟩ := KuiperIR.buildLoop_ok _ _ _ hb
        simp only [List.nil_append] at hcat
        obtain ⟨hn, ht, hl⟩ := KuiperIR.buildOps_map_some ops ros hops
        refine ⟨by rw [hcat, hl], by rw [hcat, hn], by rw [hcat, ht], ?_⟩
        intro g'' h2init
        unfold KuiperIR.Init at h2init
        rw [hp, hbp] at h2init
        rw [if_neg h1, hload] at h2init
        simp only [if_neg h2] at h2init
        cases hb2 : KuiperIR.buildLoop (ops.map some)
            { param_path := g.param_path, bin_path := g.bin_path, operators := [],
              operators_maps := [] } with
        | error e => rw [hb2] at h2init; cases h2init
        | ok gg2 =>
          rw [hb2] at h2init
          simp only [Except.ok.injEq, Prod.mk.injEq, true_and] at h2init
          subst h2init
          obtain ⟨ros2, hops2, hcat2, _, _⟩ := KuiperIR.buildLoop_ok _ _ _ hb2
          rw [hops] at hops2
          simp only [Except.ok.injEq] at hops2
          subst hops2
          simp only [List.nil_append] at hcat2
          rw [hcat2, hcat]

/-- Claim C8 witness: a concrete one-operator bundle translates to exactly
one runtime operator carrying the source name. -/
theorem init_op_list_matches_source_witness :
    KuiperIR.plainResultGraph.operators.map KuiperIR.RuntimeOperator.name =
      ["relu1"] ∧
    KuiperIR.plainResultGraph.operators.length = 1 :=
  have h := init_op_list_matches_source KuiperIR.plainLoad KuiperIR.freshGraph
    KuiperIR.plainResultGraph [KuiperIR.plainOp] rfl rfl
  ⟨h.2.1, h.1⟩

namespace KuiperZip

theorem lfhBytes_length (crc size nl : Nat) : (lfhBytes crc size nl).length = 26 := rfl

theorem entryBytes_length (name data : List Nat) :
    (entryBytes name data).length = 30 + name.length + data.length := by
  simp only [entryBytes, lfhBytes, u16le, u32le, List.length_append, List.length_cons,
    List.length_nil]

theorem cdfhBytes_length (m : WriterMeta) : (cdfhBytes m).length = 42 := rfl

theorem cdEntryBytes_length (m : WriterMeta) :
    (cdEntryBytes m).length = 46 + m.name.length := by
  simp only [cdEntryBytes, List.length_append, cdfhBytes_length, u32le_length]

theorem parseLFH_lfhBytes (crc size nl : Nat) :
    parseLFH (lfhBytes crc size nl) =
      { flag := 0, compression := 0, crc32 := crc % 4294967296,
        compressed_size := size % 4294967296,
        uncompressed_size := size % 4294967296,
        file_name_length := nl % 65536, extra_field_length := 0 } := by
  have hc : decodeU32 (lfhBytes crc size nl) 10 =
      crc % 256 + 256 * (crc / 256 % 256) +
        65536 * (crc / 65536 % 256 + 256 * (crc / 16777216 % 256)) := rfl
  have hs1 : decodeU32 (lfhBytes crc size nl) 14 =
      size % 256 + 256 * (size / 256 % 256) +
        65536 * (size / 65536 % 256 + 256 * (size / 16777216 % 256)) := rfl
  have hs2 : decodeU32 (lfhBytes crc size nl) 18 =
      size % 256 + 256 * (size / 256 % 256) +
        65536 * (size / 65536 % 256 + 256 * (size / 16777216 % 256)) := rfl
  have hn : decodeU16 (lfhBytes crc size nl) 22 =
      nl % 256 + 256 * (nl / 256 % 256) := rfl
  have h2 : decodeU16 (lfhBytes crc size nl) 2 = 0 := rfl
  have h4 : decodeU16 (lfhBytes crc size nl) 4 = 0 := rfl
  have h24 : decodeU16 (lfhBytes crc size nl) 24 = 0 := rfl
  unfold parseLFH
  simp only [LFH.mk.injEq, h2, h4, hc, hs1, hs2, hn, h24]
  refine ⟨trivial, trivial, by omega, by omega, by omega, by omega, trivial⟩

end KuiperZip

namespace KuiperZip

/-- One stored entry as laid out by write_file is consumed by one iteration
of the open loop: the table gains the entry's name with its data offset and
size, and the position advances past the entry. -/
theorem openLoop_entry_step (file : List Nat) (fuel pos : Nat) (t : ReaderTable)
    (name data suffix : List Nat)
    (hdrop : file.drop pos = entryBytes name data ++ suffix)
    (hname : name.length < 65536) (hdata : data.length < 4294967296) :
    openLoop file (fuel + 1) pos t =
      openLoop file fuel (pos + 30 + name.length + data.length)
        (mapStore t name
          { offset := pos + 30 + name.length, size := data.length }) := by
  have hassoc : entryBytes name data ++ suffix =
      u32le 0x04034b50 ++ (lfhBytes (CRC32_buffer data) data.length name.length ++
        (name ++ (data ++ suffix))) := by
    simp [entryBytes, List.append_assoc]
  rw [hassoc] at hdrop
  have hlen : (file.drop pos).length = 30 + name.length + data.length + suffix.length := by
    rw [hdrop]
    simp only [List.length_append, u32le_length, lfhBytes_length]
    omega
  have hflen : file.length - pos = 30 + name.length + data.length + suffix.length := by
    rw [← List.length_drop]; exact hlen
  have h30 : pos + 4 + 26 = pos + 30 := by omega
  have hlen4 : ¬ (file.drop pos).length < 4 := by omega
  have htake4 : (file.drop pos).take 4 = u32le 0x04034b50 := by
    rw [hdrop]; exact List.take_left' rfl
  have hsig : decodeU32 ((file.drop pos).take 4) 0 = 0x04034b50 := by
    rw [htake4]; rfl
  have hd4 : file.drop (pos + 4) =
      lfhBytes (CRC32_buffer data) data.length name.length ++
        (name ++ (data ++ suffix)) := by
    have h1 : (file.drop pos).drop 4 = file.drop (pos + 4) := List.drop_drop 4 pos file
    rw [← h1, hdrop]
    exact List.drop_left' rfl
  have hlen26 : ¬ (file.drop (pos + 4)).length < 26 := by
    rw [hd4]
    simp only [List.length_append, lfhBytes_length]
    omega
  have htake26 : (file.drop (pos + 4)).take 26 =
      lfhBytes (CRC32_buffer data) data.length name.length := by
    rw [hd4]; exact List.take_left' (lfhBytes_length _ _ _)
  have hd30 : file.drop (pos + 30) = name ++ (data ++ suffix) := by
    have h1 : (file.drop (pos + 4)).drop 26 = file.drop (pos + 4 + 26) :=
      List.drop_drop 26 (pos + 4) file
    rw [h30] at h1
    rw [← h1, hd4]
    exact List.drop_left' (lfhBytes_length _ _ _)
  have hbytesAt : bytesAt file (pos + 30) name.length = name := by
    unfold bytesAt
    rw [hd30, List.take_left' rfl]
    simp
  have hminle : pos + 30 + name.length ≤ file.length := by omega
  have hnl : name.length % 65536 = name.length := Nat.mod_eq_of_lt hname
  have hdl : data.length % 4294967296 = data.length := Nat.mod_eq_of_lt hdata
  have hmin : (pos + 30 + name.length) ⊓ file.length = pos + 30 + name.length :=
    min_eq_left (by omega)
  rw [openLoop]
  simp only [if_neg hlen4, hsig, reduceIte, if_neg hlen26, htake26, parseLFH_lfhBytes,
    hnl, hdl, h30, Nat.zero_and, ne_eq, eq_self_iff_true, not_true, or_self,
    if_false, if_true, hmin, Nat.add_zero, hbytesAt]

theorem eocdrBytes_length (r s o : Nat) : (eocdrBytes r s o).length = 18 := rfl

set_option maxHeartbeats 1000000 in
/-- A central directory record written by close is skipped by one iteration
of the open loop, leaving the table unchanged. -/
theorem openLoop_cd_step (file : List Nat) (fuel pos : Nat) (t : ReaderTable)
    (m : WriterMeta) (suffix : List Nat)
    (hdrop : file.drop pos = cdEntryBytes m ++ suffix)
    (hname : m.name.length < 65536) :
    openLoop file (fuel + 1) pos t =
      openLoop file fuel (pos + 46 + m.name.length) t := by
  have hassoc : cdEntryBytes m ++ suffix =
      u32le 0x02014b50 ++ (cdfhBytes m ++ (m.name ++ suffix)) := by
    simp [cdEntryBytes, List.append_assoc]
  rw [hassoc] at hdrop
  have hlen : (file.drop pos).length = 46 + m.name.length + suffix.length := by
    rw [hdrop]
    simp only [List.length_append, u32le_length, cdfhBytes_length]
    omega
  have hlen4 : ¬ (file.drop pos).length < 4 := by omega
  have htake4 : (file.drop pos).take 4 = u32le 0x02014b50 := by
    rw [hdrop]; exact List.take_left' rfl
  have hsig : decodeU32 ((file.drop pos).take 4) 0 = 0x02014b50 := by
    rw [htake4]; rfl
  have hd4 : file.drop (pos + 4) = cdfhBytes m ++ (m.name ++ suffix) := by
    have h1 : (file.drop pos).drop 4 = file.drop (pos + 4) := List.drop_drop 4 pos file
    rw [← h1, hdrop]
    exact List.drop_left' rfl
  have hlen42 : ¬ (file.drop (pos + 4)).length < 42 := by
    rw [hd4]
    simp only [List.length_append, cdfhBytes_length]
    omega
  have htake42 : (file.drop (pos + 4)).take 42 = cdfhBytes m := by
    rw [hd4]; exact List.take_left' (cdfhBytes_length m)
  have h24 : decodeU16 (cdfhBytes m) 24 =
      m.name.length % 256 + 256 * (m.name.length / 256 % 256) := rfl
  have h24' : decodeU16 (cdfhBytes m) 24 = m.name.length := by rw [h24]; omega
  have h26 : decodeU16 (cdfhBytes m) 26 = 0 := rfl
  have h28 : decodeU16 (cdfhBytes m) 28 = 0 := rfl
  have hc1 : ¬ decodeU32 ((file.drop pos).take 4) 0 = 0x04034b50 := by
    rw [hsig]; decide
  rw [openLoop]
  simp only [if_neg hlen4, if_neg hc1, if_pos hsig, if_neg hlen42, htake42, h24',
    h26, h28, Nat.add_zero]

/-- The end-of-central-directory record written by close is skipped by one
iteration of the open loop. -/
theorem openLoop_eocd_step (file : List Nat) (fuel pos : Nat) (t : ReaderTable)
    (records cdSize cdOffset : Nat) (suffix : List Nat)
    (hdrop : file.drop pos =
      u32le 0x06054b50 ++ (eocdrBytes records cdSize cdOffset ++ suffix)) :
    openLoop file (fuel + 1) pos t = openLoop file fuel (pos + 22) t := by
  have hlen : (file.drop pos).length = 22 + suffix.length := by
    rw [hdrop]
    simp only [List.length_append, u32le_length, eocdrBytes_length]
    omega
  have hlen4 : ¬ (file.drop pos).length < 4 := by omega
  have htake4 : (file.drop pos).take 4 = u32le 0x06054b50 := by
    rw [hdrop]; exact List.take_left' rfl
  have hsig : decodeU32 ((file.drop pos).take 4) 0 = 0x06054b50 := by
    rw [htake4]; rfl
  have hd4 : file.drop (pos + 4) = eocdrBytes records cdSize cdOffset ++ suffix := by
    have h1 : (file.drop pos).drop 4 = file.drop (pos + 4) := List.drop_drop 4 pos file
    rw [← h1, hdrop]
    exact List.drop_left' rfl
  have hlen18 : ¬ (file.drop (pos + 4)).length < 18 := by
    rw [hd4]
    simp only [List.length_append, eocdrBytes_length]
    omega
  have htake18 : (file.drop (pos + 4)).take 18 = eocdrBytes records cdSize cdOffset := by
    rw [hd4]; exact List.take_left' (eocdrBytes_length records cdSize cdOffset)
  have h16 : decodeU16 (eocdrBytes records cdSize cdOffset) 16 = 0 := rfl
  have hc1 : ¬ decodeU32 ((file.drop pos).take 4) 0 = 0x04034b50 := by
    rw [hsig]; decide
  have hc2 : ¬ decodeU32 ((file.drop pos).take 4) 0 = 0x02014b50 := by
    rw [hsig]; decide
  rw [openLoop]
  simp only [if_neg hlen4, if_neg hc1, if_neg hc2, if_pos hsig, if_neg hlen18,
    htake18, h16, Nat.add_zero]

/-- At or beyond end of file the loop stops successfully with the current
table, whatever fuel remains. -/
theorem openLoop_at_eof (file : List Nat) (fuel pos : Nat) (t : ReaderTable)
    (h : file.length ≤ pos) : openLoop file fuel pos t = .ok t := by
  rw [openLoop.eq_def, List.drop_eq_nil_of_le h]
  rfl

/-- Parsing the whole local-file-header section advances the position past
it and records exactly the table `buildTable` describes. -/
theorem openLoop_lfhSection (file : List Nat) (entries : List (List Nat × List Nat)) :
    ∀ (fuel pos : Nat) (t : ReaderTable) (suffix : List Nat),
      file.drop pos = lfhSection entries ++ suffix →
      (∀ e ∈ entries, e.1.length < 65536 ∧ e.2.length < 4294967296) →
      openLoop file (entries.length + fuel) pos t =
        openLoop file fuel (pos + (lfhSection entries).length)
          (buildTable entries pos t) := by
  induction entries with
  | nil =>
    intro fuel pos t suffix hdrop hb
    simp [lfhSection, buildTable]
  | cons e rest ih =>
    obtain ⟨n, d⟩ := e
    intro fuel pos t suffix hdrop hb
    have hdrop' : file.drop pos = entryBytes n d ++ (lfhSection rest ++ suffix) := by
      rw [hdrop, show lfhSection ((n, d) :: rest) = entryBytes n d ++ lfhSection rest
        from rfl, List.append_assoc]
    have hbd := hb (n, d) (List.mem_cons_self _ _)
    have hstep := openLoop_entry_step file (rest.length + fuel) pos t n d
      (lfhSection rest ++ suffix) hdrop' hbd.1 hbd.2
    have hfuel : ((n, d) :: rest).length + fuel = rest.length + fuel + 1 := by
      simp only [List.length_cons]; omega
    rw [hfuel, hstep]
    have hpos' : pos + 30 + n.length + d.length = pos + (entryBytes n d).length := by
      rw [entryBytes_length]; omega
    have hdroprest : file.drop (pos + 30 + n.length + d.length) =
        lfhSection rest ++ suffix := by
      rw [hpos']
      have h1 : (file.drop pos).drop (entryBytes n d).length =
          file.drop (pos + (entryBytes n d).length) := List.drop_drop _ _ _
      rw [← h1, hdrop']
      exact List.drop_left' rfl
    rw [ih fuel (pos + 30 + n.length + d.length)
      (mapStore t n { offset := pos + 30 + n.length, size := d.length })
      suffix hdroprest (fun e he => hb e (List.mem_cons_of_mem _ he))]
    rw [hpos']
    rw [show buildTable ((n, d) :: rest) pos t =
      buildTable rest (pos + (entryBytes n d).length)
        (mapStore t n { offset := pos + 30 + n.length, size := d.length }) from rfl]
    rw [show pos + (entryBytes n d).length + (lfhSection rest).length =
      pos + (lfhSection ((n, d) :: rest)).length from by
        simp only [lfhSection, List.length_append]; omega]

/-- Skipping the whole central directory advances the position past it and
leaves the table unchanged. -/
theorem openLoop_cdSection (file : List Nat) (ms : List WriterMeta) :
    ∀ (fuel pos : Nat) (t : ReaderTable) (suffix : List Nat),
      file.drop pos = cdSection ms ++ suffix →
      (∀ m ∈ ms, m.name.length < 65536) →
      openLoop file (ms.length + fuel) pos t =
        openLoop file fuel (pos + (cdSection ms).length) t := by
  induction ms with
  | nil =>
    intro fuel pos t suffix hdrop hb
    simp [cdSection]
  | cons m rest ih =>
    intro fuel pos t suffix hdrop hb
    have hdrop' : file.drop pos = cdEntryBytes m ++ (cdSection rest ++ suffix) := by
      rw [hdrop, show cdSection (m :: rest) = cdEntryBytes m ++ cdSection rest
        from rfl, List.append_assoc]
    have hstep := openLoop_cd_step file (rest.length + fuel) pos t m
      (cdSection rest ++ suffix) hdrop' (hb m (List.mem_cons_self _ _))
    have hfuel : (m :: rest).length + fuel = rest.length + fuel + 1 := by
      simp only [List.length_cons]; omega
    rw [hfuel, hstep]
    have hpos' : pos + 46 + m.name.length = pos + (cdEntryBytes m).length := by
      rw [cdEntryBytes_length]; omega
    have hdroprest : file.drop (pos + 46 + m.name.length) =
        cdSection rest ++ suffix := by
      rw [hpos']
      have h1 : (file.drop pos).drop (cdEntryBytes m).length =
          file.drop (pos + (cdEntryBytes m).length) := List.drop_drop _ _ _
      rw [← h1, hdrop']
      exact List.drop_left' rfl
    rw [ih fuel (pos + 46 + m.name.length) t suffix hdroprest
      (fun x hx => hb x (List.mem_cons_of_mem _ hx))]
    rw [hpos']
    rw [show pos + (cdEntryBytes m).length + (cdSection rest).length =
      pos + (cdSection (m :: rest)).length from by
        simp only [cdSection, List.foldr_cons, List.length_append]; omega]

end KuiperZip

namespace KuiperZip

theorem mapFind_mapStore_self (t : ReaderTable) (k : List Nat) (v : ReaderMeta) :
    mapFind (mapStore t k v) k = some v := by
  induction t with
  | nil => simp [mapStore, mapFind]
  | cons p rest ih =>
    obtain ⟨k', v'⟩ := p
    by_cases h : k' = k
    · subst h
      simp [mapStore, mapFind]
    · simp [mapStore, mapFind, h, ih]

theorem mapFind_mapStore_ne (t : ReaderTable) (k j : List Nat) (v : ReaderMeta)
    (h : k ≠ j) : mapFind (mapStore t k v) j = mapFind t j := by
  induction t with
  | nil => simp [mapStore, mapFind, h]
  | cons p rest ih =>
    obtain ⟨k', v'⟩ := p
    by_cases hk : k' = k
    · subst hk
      simp [mapStore, mapFind, h]
    · simp [mapStore, mapFind, hk, ih]

theorem mapFind_buildTable_notmem (entries : List (List Nat × List Nat)) :
    ∀ (pos : Nat) (t : ReaderTable) (k : List Nat),
      (∀ e ∈ entries, e.1 ≠ k) →
      mapFind (buildTable entries pos t) k = mapFind t k := by
  induction entries with
  | nil => intro pos t k _; rfl
  | cons e rest ih =>
    obtain ⟨n, d⟩ := e
    intro pos t k hk
    rw [show buildTable ((n, d) :: rest) pos t =
      buildTable rest (pos + (entryBytes n d).length)
        (mapStore t n { offset := pos + 30 + n.length, size := d.length }) from rfl]
    rw [ih _ _ k (fun e he => hk e (List.mem_cons_of_mem _ he))]
    exact mapFind_mapStore_ne t n k _ (hk (n, d) (List.mem_cons_self _ _))

/-- The table the local-file-header section induces resolves every entry's
name to its data offset and recorded size, and the bytes at that offset are
exactly the written data. -/
theorem buildTable_spec (file : List Nat) (entries : List (List Nat × List Nat)) :
    ∀ (pos : Nat) (t : ReaderTable) (suffix : List Nat),
      file.drop pos = lfhSection entries ++ suffix →
      (entries.map Prod.fst).Nodup →
      ∀ n d, (n, d) ∈ entries →
        ∃ meta : ReaderMeta,
          mapFind (buildTable entries pos t) n = some meta ∧
          meta.size = d.length ∧
          (file.drop meta.offset).take meta.size = d := by
  induction entries with
  | nil =>
    intro pos t suffix hdrop hnodup n d hmem
    simp at hmem
  | cons e rest ih =>
    obtain ⟨n0, d0⟩ := e
    intro pos t suffix hdrop hnodup n d hmem
    have hdrop' : file.drop pos = entryBytes n0 d0 ++ (lfhSection rest ++ suffix) := by
      rw [hdrop, show lfhSection ((n0, d0) :: rest) = entryBytes n0 d0 ++ lfhSection rest
        from rfl, List.append_assoc]
    have hcons : buildTable ((n0, d0) :: rest) pos t =
        buildTable rest (pos + (entryBytes n0 d0).length)
          (mapStore t n0 { offset := pos + 30 + n0.length, size := d0.length }) := rfl
    rw [List.map_cons, List.nodup_cons] at hnodup
    rcases List.mem_cons.mp hmem with heq | hmem'
    · obtain ⟨rfl, rfl⟩ : n = n0 ∧ d = d0 := by
        simpa [Prod.ext_iff] using heq
      refine ⟨{ offset := pos + 30 + n.length, size := d.length }, ?_, rfl, ?_⟩
      · rw [hcons]
        have hnot : ∀ e ∈ rest, e.1 ≠ n := by
          intro e he hcontr
          exact hnodup.1 (List.mem_map.mpr ⟨e, he, hcontr⟩)
        rw [mapFind_buildTable_notmem rest _ _ n hnot]
        exact mapFind_mapStore_self t n _
      · have hassoc : entryBytes n d ++ (lfhSection rest ++ suffix) =
            (u32le 0x04034b50 ++ lfhBytes (CRC32_buffer d) d.length n.length) ++
              (n ++ (d ++ (lfhSection rest ++ suffix))) := by
          simp [entryBytes, List.append_assoc]
        rw [hassoc] at hdrop'
        have hd30 : file.drop (pos + 30) = n ++ (d ++ (lfhSection rest ++ suffix)) := by
          have h1 : (file.drop pos).drop 30 = file.drop (pos + 30) :=
            List.drop_drop 30 pos file
          rw [← h1, hdrop']
          exact List.drop_left' rfl
        have hdX : file.drop (pos + 30 + n.length) =
            d ++ (lfhSection rest ++ suffix) := by
          have h1 : (file.drop (pos + 30)).drop n.length =
              file.drop (pos + 30 + n.length) := List.drop_drop _ _ _
          rw [← h1, hd30]
          exact List.drop_left' rfl
        rw [hdX]
        exact List.take_left' rfl
    · have hdroprest : file.drop (pos + (entryBytes n0 d0).length) =
          lfhSection rest ++ suffix := by
        have h1 : (file.drop pos).drop (entryBytes n0 d0).length =
            file.drop (pos + (entryBytes n0 d0).length) := List.drop_drop _ _ _
        rw [← h1, hdrop']
        exact List.drop_left' rfl
      rw [hcons]
      exact ih _ _ suffix hdroprest hnodup.2 n d hmem'

theorem metasOf_length (entries : List (List Nat × List Nat)) :
    ∀ pos, (metasOf entries pos).length = entries.length := by
  induction entries with
  | nil => intro pos; rfl
  | cons e rest ih =>
    obtain ⟨n, d⟩ := e
    intro pos
    simp [metasOf, ih]

theorem metasOf_name_bound (entries : List (List Nat × List Nat))
    (hb : ∀ e ∈ entries, e.1.length < 65536) :
    ∀ pos m, m ∈ metasOf entries pos → m.name.length < 65536 := by
  induction entries with
  | nil => intro pos m hm; simp [metasOf] at hm
  | cons e rest ih =>
    obtain ⟨n, d⟩ := e
    intro pos m hm
    rw [show metasOf ((n, d) :: rest) pos =
      { name := n, lfh_offset := pos, crc32 := CRC32_buffer d, size := d.length } ::
        metasOf rest (pos + (entryBytes n d).length) from rfl] at hm
    rcases List.mem_cons.mp hm with heq | hmem
    · subst heq
      exact hb (n, d) (List.mem_cons_self _ _)
    · exact ih (fun e he => hb e (List.mem_cons_of_mem _ he)) _ m hmem

theorem lfhSection_length_ge (entries : List (List Nat × List Nat)) :
    entries.length ≤ (lfhSection entries).length := by
  induction entries with
  | nil => simp [lfhSection]
  | cons e rest ih =>
    obtain ⟨n, d⟩ := e
    rw [show lfhSection ((n, d) :: rest) = entryBytes n d ++ lfhSection rest from rfl]
    simp only [List.length_append, List.length_cons, entryBytes_length]
    omega

theorem cdSection_length_ge (ms : List WriterMeta) :
    ms.length ≤ (cdSection ms).length := by
  induction ms with
  | nil => simp [cdSection]
  | cons m rest ih =>
    rw [show cdSection (m :: rest) = cdEntryBytes m ++ cdSection rest from rfl]
    simp only [List.length_append, List.length_cons, cdEntryBytes_length]
    omega

/-- Writing a sequence of entries appends exactly the local-file-header
section to the output and records exactly the corresponding metadata. -/
theorem writeAll_out_metas (entries : List (List Nat × List Nat)) :
    ∀ st : WriterState,
      (entries.foldl (fun st e => write_file st e.1 e.2) st).out =
        st.out ++ lfhSection entries ∧
      (entries.foldl (fun st e => write_file st e.1 e.2) st).filemetas =
        st.filemetas ++ metasOf entries st.out.length := by
  induction entries with
  | nil => intro st; simp [lfhSection, metasOf]
  | cons e rest ih =>
    obtain ⟨n, d⟩ := e
    intro st
    simp only [List.foldl_cons]
    obtain ⟨h1, h2⟩ := ih (write_file st n d)
    constructor
    · rw [h1]
      simp [write_file, lfhSection, List.append_assoc]
    · rw [h2]
      rw [show metasOf ((n, d) :: rest) st.out.length =
        { name := n, lfh_offset := st.out.length, crc32 := CRC32_buffer d,
          size := d.length } ::
          metasOf rest (st.out.length + (entryBytes n d).length) from rfl]
      rw [show (write_file st n d).out.length = st.out.length + (entryBytes n d).length
        from by simp [write_file]]
      simp [write_file, List.append_assoc]

end KuiperZip

open KuiperZip in
/-- Claim C4: archive round-trip.  Writing any sequence of distinctly named
byte buffers (empty buffers included) with write_file and close, then
opening the result, succeeds; and for every written name, get_file_size
returns the buffer's length and read_file fills the caller's buffer with
exactly the written bytes, returning success. -/
theorem archive_roundtrip (entries : List (List Nat × List Nat))
    (hnodup : (entries.map Prod.fst).Nodup)
    (hbounds : ∀ e ∈ entries, e.1.length < 65536 ∧ e.2.length < 4294967296) :
    ∃ table,
      zipOpen (writer_close (writeAll entries)) = .ok table ∧
      ∀ n d, (n, d) ∈ entries →
        get_file_size table n = d.length ∧
        read_file (writer_close (writeAll entries)) table n
          (List.replicate d.length 0) = (0, d) := by
  have hworm := writeAll_out_metas entries WriterState.init
  have hout : (writeAll entries).out = lfhSection entries := by
    have h := hworm.1
    simpa [WriterState.init, writeAll] using h
  have hmetas : (writeAll entries).filemetas = metasOf entries 0 := by
    have h := hworm.2
    simpa [WriterState.init, writeAll] using h
  have hfile : writer_close (writeAll entries) =
      lfhSection entries ++
        (cdSection (metasOf entries 0) ++
          (u32le 0x06054b50 ++
            eocdrBytes (metasOf entries 0).length
              ((lfhSection entries ++ cdSection (metasOf entries 0)).length -
                (lfhSection entries).length)
              (lfhSection entries).length)) := by
    unfold writer_close
    rw [hout, hmetas]
    simp [List.append_assoc]
  have hdrop0 : (writer_close (writeAll entries)).drop 0 =
      lfhSection entries ++
        (cdSection (metasOf entries 0) ++
          (u32le 0x06054b50 ++
            eocdrBytes (metasOf entries 0).length
              ((lfhSection entries ++ cdSection (metasOf entries 0)).length -
                (lfhSection entries).length)
              (lfhSection entries).length)) := by
    rw [List.drop_zero]
    exact hfile
  have hdropLf : (writer_close (writeAll entries)).drop (lfhSection entries).length =
      cdSection (metasOf entries 0) ++
        (u32le 0x06054b50 ++
          eocdrBytes (metasOf entries 0).length
            ((lfhSection entries ++ cdSection (metasOf entries 0)).length -
              (lfhSection entries).length)
            (lfhSection entries).length) := by
    rw [hfile]
    exact List.drop_left' rfl
  have hdropChunk : (writer_close (writeAll entries)).drop
      ((lfhSection entries).length + (cdSection (metasOf entries 0)).length) =
      u32le 0x06054b50 ++
        (eocdrBytes (metasOf entries 0).length
          ((lfhSection entries ++ cdSection (metasOf entries 0)).length -
            (lfhSection entries).length)
          (lfhSection entries).length ++ []) := by
    rw [List.append_nil]
    have h1 : ((writer_close (writeAll entries)).drop (lfhSection entries).length).drop
        (cdSection (metasOf entries 0)).length =
        (writer_close (writeAll entries)).drop
          ((lfhSection entries).length + (cdSection (metasOf entries 0)).length) :=
      List.drop_drop _ _ _
    rw [← h1, hdropLf]
    exact List.drop_left' rfl
  have hflen : (writer_close (writeAll entries)).length =
      (lfhSection entries).length + ((cdSection (metasOf entries 0)).length + 22) := by
    rw [hfile]
    simp only [List.length_append, u32le_length, eocdrBytes_length]
  have hLfge := lfhSection_length_ge entries
  have hLcge := cdSection_length_ge (metasOf entries 0)
  have hMlen : (metasOf entries 0).length = entries.length := metasOf_length entries 0
  have hnames : ∀ m ∈ metasOf entries 0, m.name.length < 65536 :=
    fun m hm => metasOf_name_bound entries (fun e he => (hbounds e he).1) 0 m hm
  have hopen : zipOpen (writer_close (writeAll entries)) =
      .ok (buildTable entries 0 []) := by
    unfold zipOpen
    rw [show (writer_close (writeAll entries)).length =
      entries.length + ((metasOf entries 0).length +
        (1 + ((writer_close (writeAll entries)).length -
          (2 * entries.length + 1)))) from by omega]
    rw [openLoop_lfhSection (writer_close (writeAll entries)) entries
      ((metasOf entries 0).length +
        (1 + ((writer_close (writeAll entries)).length - (2 * entries.length + 1))))
      0 [] _ hdrop0 hbounds]
    simp only [Nat.zero_add]
    rw [openLoop_cdSection (writer_close (writeAll entries)) (metasOf entries 0)
      (1 + ((writer_close (writeAll entries)).length - (2 * entries.length + 1)))
      (lfhSection entries).length (buildTable entries 0 []) _ hdropLf hnames]
    rw [show 1 + ((writer_close (writeAll entries)).length - (2 * entries.length + 1)) =
      ((writer_close (writeAll entries)).length - (2 * entries.length + 1)) + 1
      from by omega]
    rw [openLoop_eocd_step (writer_close (writeAll entries))
      ((writer_close (writeAll entries)).length - (2 * entries.length + 1))
      ((lfhSection entries).length + (cdSection (metasOf entries 0)).length)
      (buildTable entries 0 []) (metasOf entries 0).length
      ((lfhSection entries ++ cdSection (metasOf entries 0)).length -
        (lfhSection entries).length)
      (lfhSection entries).length [] hdropChunk]
    exact openLoop_at_eof _ _ _ _ (by omega)
  refine ⟨buildTable entries 0 [], hopen, ?_⟩
  intro n d hmem
  obtain ⟨meta, hfind, hsize, hdata⟩ :=
    buildTable_spec (writer_close (writeAll entries)) entries 0 [] _ hdrop0 hnodup n d hmem
  constructor
  · unfold get_file_size
    simp only [hfind]
    exact hsize
  · unfold read_file
    simp only [hfind]
    have hrep : (List.replicate d.length (0 : Nat)).drop d.length = [] :=
      List.drop_eq_nil_of_le (by simp)
    simp only [hdata, hrep, List.append_nil]

/-- Claim C4 witness: two concrete entries, one with an empty buffer, round
trip exactly. -/
theorem archive_roundtrip_witness :
    ∃ table,
      KuiperZip.zipOpen (KuiperZip.writer_close
        (KuiperZip.writeAll [([97], [1, 2, 3]), ([98, 99], [])])) = .ok table ∧
      ∀ n d, (n, d) ∈ [([97], [1, 2, 3]), ([98, 99], ([] : List Nat))] →
        KuiperZip.get_file_size table n = d.length ∧
        KuiperZip.read_file (KuiperZip.writer_close
          (KuiperZip.writeAll [([97], [1, 2, 3]), ([98, 99], [])])) table n
          (List.replicate d.length 0) = (0, d) :=
  archive_roundtrip [([97], [1, 2, 3]), ([98, 99], [])] (by decide)
    (by decide)
